import Mathlib

/-!
Formal model of `src/utils/mail.ts`: a scripting bridge to a desktop mail
client.  Every public operation renders an AppleScript string, hands it to an
external interpreter (`runAppleScript`), and parses the textual or structured
reply.  The interpreter is modelled as a function from script text to either
an error message (a thrown exception) or a reply value; each operation is a
pure function of that interpreter, returning its result together with the
list of scripts it invoked, in order.

JavaScript string primitives (`trim`, `toLowerCase`, `split`, `startsWith`,
`replace`) are embedded as executable functions on the character list of a
`String`, so that every concrete run of the model reduces by `decide`/`rfl`.
-/

namespace Mail

/-- Configuration constants (`CONFIG`, mail.ts lines 4-11). -/
def MAX_EMAILS : Nat := 20

/-- `CONFIG.MAX_CONTENT_PREVIEW` (mail.ts line 8). -/
def MAX_CONTENT_PREVIEW : Nat := 300

/-- The `EmailMessage` interface (mail.ts lines 13-20). -/
structure EmailMessage where
  subject : String
  sender : String
  dateSent : String
  content : String
  isRead : Bool
  mailbox : String
deriving Repr, DecidableEq

/-- A value returned by the AppleScript interpreter: either a text value or a
native list of text values (mail.ts treats both shapes, e.g. lines 363-374). -/
inductive ASValue where
  | str (s : String)
  | list (xs : List String)
deriving Repr, DecidableEq

/-- The interpreter (`runAppleScript`): a script either yields a reply value
or raises an error carrying a message. -/
def Invoker := String → Except String ASValue

/-! ## Embedded JavaScript string primitives -/

/-- Embedding of JavaScript `String.prototype.trim`. -/
def jsTrim (s : String) : String :=
  String.mk (((s.data.dropWhile Char.isWhitespace).reverse.dropWhile Char.isWhitespace).reverse)

/-- Embedding of JavaScript `String.prototype.toLowerCase` (ASCII letters). -/
def jsToLower (s : String) : String :=
  String.mk (s.data.map Char.toLower)

/-- Embedding of JavaScript `String.prototype.startsWith`. -/
def jsStartsWith (s pre : String) : Bool :=
  pre.data.isPrefixOf s.data

/-- Embedding of JavaScript `s.replace(/"/g, String of backslash-quote)`:
each embedded quote character is replaced by a backslash followed by a quote
(mail.ts lines 299-304, 499, 601, 603, ...). -/
def escapeQuotes (s : String) : String :=
  String.mk (s.data.flatMap fun c => if c = '"' then ['\\', '"'] else [c])

/-- Embedding of JavaScript `s.replace(/\\/g, double backslash)`: each
backslash is doubled (applied to the subject literal of the mutating
operations, mail.ts lines 602, 682, 762, 833). -/
def escapeBackslashes (s : String) : String :=
  String.mk (s.data.flatMap fun c => if c = '\\' then ['\\', '\\'] else [c])

/-- Fueled splitter implementing JavaScript `String.prototype.split` with a
non-empty separator: repeatedly cut at the leftmost occurrence of `sep`.
The fuel argument only serves to make the recursion structural; `splitChars`
below supplies enough fuel for it never to run out. -/
def splitCharsF (sep : List Char) : Nat → List Char → List (List Char)
  | 0, cs => [cs]
  | _ + 1, [] => [[]]
  | fuel + 1, c :: rest =>
    if sep.isPrefixOf (c :: rest) ∧ sep ≠ [] then
      [] :: splitCharsF sep fuel ((c :: rest).drop sep.length)
    else
      match splitCharsF sep fuel rest with
      | [] => [[c]]
      | f :: fs => (c :: f) :: fs

/-- JavaScript `split` on character lists (non-empty separator). -/
def splitChars (sep cs : List Char) : List (List Char) :=
  splitCharsF sep (cs.length + 1) cs

/-- Embedding of JavaScript `s.split(sep)` for the non-empty separators used
in mail.ts (the comma and the two private delimiters). -/
def jsSplit (sep s : String) : List String :=
  (splitChars sep.data s.data).map String.mk

/-! ## Script builders

The AppleScript sources are transcribed from the template literals in
mail.ts; `${...}` interpolation points become string concatenation.  Literal
braces of AppleScript record syntax are written with character escapes. -/

/-- The no-op access probe issued by `checkMailAccess` (mail.ts lines 27-30). -/
def accessScript : String :=
"
tell application \"Mail\"
    return name
end tell"

/-- Script of `getUnreadMails` (mail.ts lines 81-139), parameterized by the
already-clamped `maxEmails`. -/
def unreadScript (maxEmails : Nat) : String :=
"
tell application \"Mail\"
    set emailList to \x7b\x7d
    set emailCount to 0

    -- Get mailboxes (limited to avoid performance issues)
    set allMailboxes to mailboxes

    repeat with i from 1 to (count of allMailboxes)
        if emailCount >= " ++ toString maxEmails ++ " then exit repeat

        try
            set currentMailbox to item i of allMailboxes
            set mailboxName to name of currentMailbox

            -- Get unread messages from this mailbox
            set unreadMessages to messages of currentMailbox

            repeat with j from 1 to (count of unreadMessages)
                if emailCount >= " ++ toString maxEmails ++ " then exit repeat

                try
                    set currentMsg to item j of unreadMessages

                    -- Only process unread messages
                    if read status of currentMsg is false then
                        set emailSubject to subject of currentMsg
                        set emailSender to sender of currentMsg
                        set emailDate to (date sent of currentMsg) as string

                        -- Get content with length limit
                        set emailContent to \"\"
                        try
                            set fullContent to content of currentMsg
                            if (length of fullContent) > " ++ toString MAX_CONTENT_PREVIEW ++ " then
                                set emailContent to (characters 1 thru " ++ toString MAX_CONTENT_PREVIEW ++ " of fullContent) as string
                                set emailContent to emailContent & \"...\"
                            else
                                set emailContent to fullContent
                            end if
                        on error
                            set emailContent to \"[Content not available]\"
                        end try

                        set emailInfo to \x7bsubject:emailSubject, sender:emailSender, dateSent:emailDate, content:emailContent, isRead:false, mailbox:mailboxName\x7d
                        set emailList to emailList & \x7bemailInfo\x7d
                        set emailCount to emailCount + 1
                    end if
                on error
                    -- Skip problematic messages
                end try
            end repeat
        on error
            -- Skip problematic mailboxes
        end try
    end repeat

    return \"SUCCESS:\" & (count of emailList)
end tell"

/-- Script of `searchMails` (mail.ts lines 178-238), parameterized by the
lowercased search term and the clamped `maxEmails`. -/
def searchScript (cleanSearchTerm : String) (maxEmails : Nat) : String :=
"
tell application \"Mail\"
    set emailList to \x7b\x7d
    set emailCount to 0
    set searchTerm to \"" ++ cleanSearchTerm ++ "\"

    -- Get mailboxes (limited to avoid performance issues)
    set allMailboxes to mailboxes

    repeat with i from 1 to (count of allMailboxes)
        if emailCount >= " ++ toString maxEmails ++ " then exit repeat

        try
            set currentMailbox to item i of allMailboxes
            set mailboxName to name of currentMailbox

            -- Get messages from this mailbox
            set allMessages to messages of currentMailbox

            repeat with j from 1 to (count of allMessages)
                if emailCount >= " ++ toString maxEmails ++ " then exit repeat

                try
                    set currentMsg to item j of allMessages
                    set emailSubject to subject of currentMsg

                    -- Simple case-insensitive search in subject
                    if emailSubject contains searchTerm then
                        set emailSender to sender of currentMsg
                        set emailDate to (date sent of currentMsg) as string
                        set emailRead to read status of currentMsg

                        -- Get content with length limit
                        set emailContent to \"\"
                        try
                            set fullContent to content of currentMsg
                            if (length of fullContent) > " ++ toString MAX_CONTENT_PREVIEW ++ " then
                                set emailContent to (characters 1 thru " ++ toString MAX_CONTENT_PREVIEW ++ " of fullContent) as string
                                set emailContent to emailContent & \"...\"
                            else
                                set emailContent to fullContent
                            end if
                        on error
                            set emailContent to \"[Content not available]\"
                        end try

                        set emailInfo to \x7bsubject:emailSubject, sender:emailSender, dateSent:emailDate, content:emailContent, isRead:emailRead, mailbox:mailboxName\x7d
                        set emailList to emailList & \x7bemailInfo\x7d
                        set emailCount to emailCount + 1
                    end if
                on error
                    -- Skip problematic messages
                end try
            end repeat
        on error
            -- Skip problematic mailboxes
        end try
    end repeat

    return \"SUCCESS:\" & (count of emailList)
end tell"

/-- The temporary body file path of `sendMail` (mail.ts line 285); `now` is
the value of `Date.now()`. -/
def tmpFileName (now : Nat) : String :=
  "/tmp/email-body-" ++ toString now ++ ".txt"

/-- Script of `sendMail` (mail.ts lines 291-309).  The subject and the
recipient addresses are interpolated after quote-escaping; the cc and bcc
clauses are omitted entirely when the argument is absent. -/
def sendScript (tmpFile toAddr subject : String) (cc bcc : Option String) : String :=
"
tell application \"Mail\"
    activate

    -- Read email body from file to preserve formatting
    set emailBody to read file POSIX file \"" ++ tmpFile ++ "\" as «class utf8»

    -- Create new message
    set newMessage to make new outgoing message with properties \x7bsubject:\"" ++ escapeQuotes subject ++ "\", content:emailBody, visible:true\x7d

    tell newMessage
        make new to recipient with properties \x7baddress:\"" ++ escapeQuotes toAddr ++ "\"\x7d
        " ++ (match cc with
              | some c => "make new cc recipient with properties \x7baddress:\"" ++ escapeQuotes c ++ "\"\x7d"
              | none => "") ++ "
        " ++ (match bcc with
              | some b => "make new bcc recipient with properties \x7baddress:\"" ++ escapeQuotes b ++ "\"\x7d"
              | none => "") ++ "
    end tell

    send newMessage
    return \"SUCCESS\"
end tell"

/-- Script of `getMailboxes` (mail.ts lines 345-361). -/
def mailboxesScript : String :=
"
tell application \"Mail\"
    try
        set boxNames to \x7b\x7d
        set allBoxes to every mailbox
        repeat with mb in allBoxes
            try
                set end of boxNames to name of mb
            on error
                -- Skip mailboxes we cannot read
            end try
        end repeat
        return boxNames
    on error
        return \x7b\x7d
    end try
end tell"

/-- Script of `getAccounts` (mail.ts lines 393-409). -/
def accountsScript : String :=
"
tell application \"Mail\"
    try
        set accountNames to \x7b\x7d
        set allAccounts to every account
        repeat with acct in allAccounts
            try
                set end of accountNames to name of acct
            on error
                -- Skip accounts we cannot read
            end try
        end repeat
        return accountNames
    on error
        return \x7b\x7d
    end try
end tell"

/-- Script of `getMailboxesForAccount` (mail.ts lines 445-469), parameterized
by the quote-escaped account name. -/
def mailboxesForAccountScript (safeAccount : String) : String :=
"
tell application \"Mail\"
    set boxList to \x7b\x7d

    try
        -- Find the account
        set targetAccount to first account whose name is \"" ++ safeAccount ++ "\"
        set accountMailboxes to mailboxes of targetAccount

        repeat with i from 1 to (count of accountMailboxes)
            try
                set currentMailbox to item i of accountMailboxes
                set mailboxName to name of currentMailbox
                set boxList to boxList & \x7bmailboxName\x7d
            on error
                -- Skip problematic mailboxes
            end try
        end repeat
    on error
        -- Account not found or other error
        return \x7b\x7d
    end try

    return boxList
end tell"

/-- Record delimiter of `getLatestMails` (mail.ts line 503). -/
def DELIM : String := "<<<EMAIL_SEP>>>"

/-- Field delimiter of `getLatestMails` (mail.ts line 504). -/
def FIELD_DELIM : String := "<<<FIELD>>>"

/-- Script of `getLatestMails` (mail.ts lines 506-551), parameterized by the
quote-escaped account name and the clamped `maxMessages`. -/
def latestScript (safeAccount : String) (maxMessages : Nat) : String :=
"
tell application \"Mail\"
    set resultText to \"\"
    try
        set targetAccount to first account whose name is \"" ++ safeAccount ++ "\"
        -- Try INBOX first, fall back to first mailbox
        try
            set targetMailbox to mailbox \"INBOX\" of targetAccount
        on error
            set targetMailbox to first mailbox of targetAccount
        end try

        set msgCount to count of messages of targetMailbox
        if msgCount > " ++ toString maxMessages ++ " then set msgCount to " ++ toString maxMessages ++ "

        repeat with i from 1 to msgCount
            try
                set currentMsg to message i of targetMailbox
                set msgSubject to subject of currentMsg
                set msgSender to sender of currentMsg
                set msgDate to (date sent of currentMsg) as string
                set msgRead to read status of currentMsg

                -- Get content safely
                set msgContent to \"[Content not available]\"
                try
                    set rawContent to content of currentMsg
                    if (length of rawContent) > 300 then
                        set msgContent to (text 1 thru 300 of rawContent) & \"...\"
                    else
                        set msgContent to rawContent
                    end if
                end try

                -- Build delimited output
                set resultText to resultText & msgSubject & \"" ++ FIELD_DELIM ++ "\" & msgSender & \"" ++ FIELD_DELIM ++ "\" & msgDate & \"" ++ FIELD_DELIM ++ "\" & msgRead & \"" ++ FIELD_DELIM ++ "\" & msgContent & \"" ++ DELIM ++ "\"
            on error
                -- Skip problematic messages
            end try
        end repeat
    on error errMsg
        return \"ERROR:\" & errMsg
    end try

    return resultText
end tell"

/-! ## Access gate and public operations

Each operation model returns its result paired with the ordered list of
scripts it handed to the interpreter. -/

/-- `checkMailAccess` (mail.ts lines 25-40): the probe succeeds iff the
interpreter does not raise. -/
def checkMailAccess (inv : Invoker) : Bool :=
  match inv accessScript with
  | .ok _ => true
  | .error _ => false

/-- Result shape of `requestMailAccess` (mail.ts line 45). -/
structure AccessResult where
  hasAccess : Bool
  message : String
deriving Repr, DecidableEq

/-- The fixed four-step remediation message (mail.ts line 59). -/
def remediationMessage : String :=
  "Mail access is required but not granted. Please:\n1. Open System Settings > Privacy & Security > Automation\n2. Find your terminal/app in the list and enable 'Mail'\n3. Make sure Mail app is running and configured with at least one account\n4. Restart your terminal and try again"

/-- `requestMailAccess` (mail.ts lines 45-67). -/
def requestMailAccess (inv : Invoker) : AccessResult :=
  if checkMailAccess inv then
    ⟨true, "Mail access is already granted."⟩
  else
    ⟨false, remediationMessage⟩

/-- `getUnreadMails` (mail.ts lines 72-156).  On access failure the thrown
error is caught and the empty list returned; on a reply both the
`SUCCESS:`-prefixed branch and the fallthrough return the empty list (the
record parsing for this operation was never implemented, lines 143-149). -/
def getUnreadMails (inv : Invoker) (limit : Nat := 10) :
    List EmailMessage × List String :=
  let access := requestMailAccess inv
  if access.hasAccess = false then ([], [accessScript])
  else
    let maxEmails := min limit MAX_EMAILS
    let script := unreadScript maxEmails
    match inv script with
    | .ok (.str result) =>
      (if result ≠ "" ∧ jsStartsWith result "SUCCESS:" then [] else [],
       [accessScript, script])
    | .ok (.list _) => ([], [accessScript, script])
    | .error _ => ([], [accessScript, script])

/-- `searchMails` (mail.ts lines 161-255).  An empty or whitespace-only term
returns the empty list before the search script is built (lines 171-173);
both reply branches return the empty list (lines 242-248). -/
def searchMails (inv : Invoker) (searchTerm : String) (limit : Nat := 10) :
    List EmailMessage × List String :=
  let access := requestMailAccess inv
  if access.hasAccess = false then ([], [accessScript])
  else if jsTrim searchTerm = "" then ([], [accessScript])
  else
    let maxEmails := min limit MAX_EMAILS
    let cleanSearchTerm := jsToLower searchTerm
    let script := searchScript cleanSearchTerm maxEmails
    match inv script with
    | .ok (.str result) =>
      (if result ≠ "" ∧ jsStartsWith result "SUCCESS:" then [] else [],
       [accessScript, script])
    | .ok (.list _) => ([], [accessScript, script])
    | .error _ => ([], [accessScript, script])

/-- Observable outcome of one `sendMail` call: the returned value or thrown
error, the content written to the temporary body file (if the call got that
far), whether a deletion of that file was attempted (the attempt itself
swallows errors, mail.ts lines 314-318), and the scripts invoked. -/
structure SendOutcome where
  result : Except String String
  fileWritten : Option String
  fileDeleted : Bool
  trace : List String
deriving Repr

/-- `sendMail` (mail.ts lines 260-333).  Validation errors, invocation
errors and non-`SUCCESS` replies are all re-thrown with the
`Error sending email:` prefix (lines 325-332).  The temporary file is
written with the trimmed body (line 289) and unlinked only after the
interpreter call returns (line 315); when the interpreter raises, control
jumps to the catch block and no unlink runs. -/
def sendMail (inv : Invoker) (now : Nat) (toAddr subject body : String)
    (cc bcc : Option String := none) : SendOutcome :=
  let access := requestMailAccess inv
  if access.hasAccess = false then
    ⟨.error ("Error sending email: " ++ access.message), none, false, [accessScript]⟩
  else if jsTrim toAddr = "" then
    ⟨.error "Error sending email: To address is required", none, false, [accessScript]⟩
  else if jsTrim subject = "" then
    ⟨.error "Error sending email: Subject is required", none, false, [accessScript]⟩
  else if jsTrim body = "" then
    ⟨.error "Error sending email: Email body is required", none, false, [accessScript]⟩
  else
    let tmpFile := tmpFileName now
    let content := jsTrim body
    let script := sendScript tmpFile toAddr subject cc bcc
    match inv script with
    | .error e =>
      ⟨.error ("Error sending email: " ++ e), some content, false,
       [accessScript, script]⟩
    | .ok v =>
      if v = .str "SUCCESS" then
        ⟨.ok ("Email sent to " ++ toAddr ++ " with subject \"" ++ subject ++ "\""),
         some content, true, [accessScript, script]⟩
      else
        ⟨.error "Error sending email: Failed to send email", some content, true,
         [accessScript, script]⟩

/-- Shared reply handling of `getMailboxes`/`getAccounts` (mail.ts lines
363-374 and 411-422): a native list is filtered to non-empty entries; a
text value is split on commas, trimmed and filtered; anything else is the
empty list. -/
def parseNameList (v : ASValue) : List String :=
  match v with
  | .list xs => xs.filter (fun name => name ≠ "")
  | .str result =>
    if jsTrim result ≠ "" then
      ((jsSplit "," result).map jsTrim).filter (fun s => s ≠ "")
    else []

/-- `getMailboxes` (mail.ts lines 338-381). -/
def getMailboxes (inv : Invoker) : List String × List String :=
  let access := requestMailAccess inv
  if access.hasAccess = false then ([], [accessScript])
  else
    match inv mailboxesScript with
    | .ok v => (parseNameList v, [accessScript, mailboxesScript])
    | .error _ => ([], [accessScript, mailboxesScript])

/-- `getAccounts` (mail.ts lines 386-429). -/
def getAccounts (inv : Invoker) : List String × List String :=
  let access := requestMailAccess inv
  if access.hasAccess = false then ([], [accessScript])
  else
    match inv accountsScript with
    | .ok v => (parseNameList v, [accessScript, accountsScript])
    | .error _ => ([], [accessScript, accountsScript])

/-- `getMailboxesForAccount` (mail.ts lines 434-484).  An empty or
whitespace-only account name returns the empty list before invocation
(lines 441-443).  Unlike `getMailboxes`/`getAccounts`, only the native-list
reply shape is handled (lines 473-475): a text reply falls through to the
empty list. -/
def getMailboxesForAccount (inv : Invoker) (accountName : String) :
    List String × List String :=
  let access := requestMailAccess inv
  if access.hasAccess = false then ([], [accessScript])
  else if jsTrim accountName = "" then ([], [accessScript])
  else
    let script := mailboxesForAccountScript (escapeQuotes accountName)
    match inv script with
    | .ok (.list xs) =>
      (xs.filter (fun name => name ≠ ""), [accessScript, script])
    | .ok (.str _) => ([], [accessScript, script])
    | .error _ => ([], [accessScript, script])

/-- JavaScript `a || b` on strings: the left operand unless it is falsy
(empty). -/
def jsOr (s dflt : String) : String :=
  if s = "" then dflt else s

/-- Loop body of the record parsing in `getLatestMails` (mail.ts lines
566-578): push one `EmailMessage` when the record yields at least 4 fields,
with placeholder fallbacks for subject, sender, date and content; `now` is
`new Date().toString()`. -/
def parseRecordStep (now account : String) (acc : List EmailMessage)
    (emailStr : String) : List EmailMessage :=
  let fields := jsSplit FIELD_DELIM emailStr
  if 4 ≤ fields.length then
    acc ++ [{ subject := jsOr (fields.getD 0 "") "No subject"
              sender := jsOr (fields.getD 1 "") "Unknown sender"
              dateSent := jsOr (fields.getD 2 "") now
              isRead := fields.getD 3 "" = "true"
              content := jsOr (fields.getD 4 "") "[Content not available]"
              mailbox := account ++ " - INBOX" }]
  else acc

/-- The record-parsing loop of `getLatestMails` (mail.ts lines 563-578):
split the reply on the record delimiter discarding empty fragments, then
fold the per-record step over the fragments. -/
def parseEmailData (now account asResult : String) : List EmailMessage :=
  let emailStrings := (jsSplit DELIM asResult).filter (fun s => s ≠ "")
  emailStrings.foldl (parseRecordStep now account) []

/-- `getLatestMails` (mail.ts lines 489-585).  A non-text reply yields the
empty list (lines 555-557); an `ERROR:`-prefixed reply is thrown, caught and
reported as the empty list (lines 559-561, 581-584); otherwise the reply is
parsed into records. -/
def getLatestMails (inv : Invoker) (now account : String) (limit : Nat := 5) :
    List EmailMessage × List String :=
  let access := requestMailAccess inv
  if access.hasAccess = false then ([], [accessScript])
  else
    let safeAccount := escapeQuotes account
    let maxMessages := min limit MAX_EMAILS
    let script := latestScript safeAccount maxMessages
    match inv script with
    | .error _ => ([], [accessScript, script])
    | .ok (.list _) => ([], [accessScript, script])
    | .ok (.str asResult) =>
      if jsStartsWith asResult "ERROR:" then ([], [accessScript, script])
      else (parseEmailData now account asResult, [accessScript, script])

/-! ## Escaped literals of the mutating operations -/

/-- `safeAccount` of `archiveEmail` (mail.ts line 601). -/
def archiveSafeAccount (account : String) : String :=
  escapeQuotes account

/-- `safeSubject` of `archiveEmail` (mail.ts line 602): quote-escaping first,
then backslash-doubling, which also doubles the backslashes the first step
introduced. -/
def archiveSafeSubject (subject : String) : String :=
  escapeBackslashes (escapeQuotes subject)

/-- `safeSender` of `archiveEmail` (mail.ts line 603): quote-escaping only. -/
def archiveSafeSender (sender : String) : String :=
  escapeQuotes sender

/-! ## checkIfReplied pattern construction (mail.ts lines 828-836) -/

/-- One step of the JavaScript regex `/^(Re:|RE:|Fwd:|FWD:)\s*/i` applied by
`checkIfReplied` (mail.ts line 831): strip one leading reply/forward marker,
case-insensitively, together with any whitespace that follows it. -/
def stripReplyTag (s : String) : String :=
  let cs := s.data
  if (cs.take 3).map Char.toLower = ['r', 'e', ':'] then
    String.mk ((cs.drop 3).dropWhile Char.isWhitespace)
  else if (cs.take 4).map Char.toLower = ['f', 'w', 'd', ':'] then
    String.mk ((cs.drop 4).dropWhile Char.isWhitespace)
  else s

/-- Cut a character list at its first `>`: the characters before it and the
characters after it, or `none` when there is no `>`. -/
def splitAtGt : List Char → Option (List Char × List Char)
  | [] => none
  | c :: rest =>
    if c = '>' then some ([], rest)
    else
      match splitAtGt rest with
      | none => none
      | some (p, s) => some (c :: p, s)

/-- Leftmost match of the JavaScript regex `/<([^>]+)>/` (mail.ts line 835):
the capture of the first angle-bracket group with a non-empty body. -/
def firstAngleCapture : List Char → Option (List Char)
  | [] => none
  | c :: rest =>
    if c = '<' then
      match splitAtGt rest with
      | some (p, _) => if p = [] then firstAngleCapture rest else some p
      | none => firstAngleCapture rest
    else firstAngleCapture rest

/-- The address `checkIfReplied` compares recipients against, before
lowercasing and escaping (mail.ts lines 835-836): the angle-bracket capture
when present, else the raw sender text. -/
def recipientAddr (originalSender : String) : String :=
  match firstAngleCapture originalSender.data with
  | some p => String.mk p
  | none => originalSender

/-- `senderEmail` of `checkIfReplied` (mail.ts line 836): the extracted
address, lowercased, then quote-escaped for interpolation. -/
def replyRecipientPattern (originalSender : String) : String :=
  escapeQuotes (jsToLower (recipientAddr originalSender))

/-- `safeSubject` of `checkIfReplied` (mail.ts lines 830-833): strip one
reply/forward marker, then quote-escape, then double backslashes. -/
def replySafeSubject (originalSubject : String) : String :=
  escapeBackslashes (escapeQuotes (stripReplyTag originalSubject))

/-! ## Semantics of the latest-messages script

`getLatestMails` is the one listing operation whose reply it actually
parses, so the loop of its generated AppleScript (mail.ts lines 518-545) is
itself embedded: given the messages of the resolved mailbox it emits one
delimited record per message, for at most `maxMessages` messages. -/

/-- A message as the latest-messages script reads it from the mailbox. -/
structure MailRecord where
  subject : String
  sender : String
  dateSent : String
  isRead : Bool
  content : String
deriving Repr, DecidableEq

/-- The content preview computed by the script (mail.ts lines 531-538):
at most 300 characters, with an ellipsis when truncated. -/
def previewOf (content : String) : String :=
  if 300 < content.data.length then String.mk (content.data.take 300) ++ "..."
  else content

/-- One delimited record as concatenated by the script (mail.ts line 541). -/
def scriptRecord (m : MailRecord) : String :=
  m.subject ++ FIELD_DELIM ++ m.sender ++ FIELD_DELIM ++ m.dateSent ++
    FIELD_DELIM ++ (if m.isRead then "true" else "false") ++ FIELD_DELIM ++
    previewOf m.content

/-- The reply text produced by the latest-messages script on a mailbox
holding `msgs` (mail.ts lines 518-545, 550): records of the first
`min (count, maxMessages)` messages, each followed by the record
delimiter. -/
def latestReplyFor (msgs : List MailRecord) (maxMessages : Nat) : String :=
  let msgCount := min msgs.length maxMessages
  (msgs.take msgCount).foldl (fun acc m => acc ++ scriptRecord m ++ DELIM) ""

/-! ## Spec-side definitions

These two definitions follow the words of the specification (spec.md §4.4
and §8) rather than the source; the refinement theorems compare the source
translations against them. -/

/-- Modelled from the spec's words (spec.md §4.4): a record is accepted only
if it yields at least 4 fields, with fields beyond that optional; missing
subject, sender, date and content default to the fixed placeholder text. -/
def specParseRecord (now account record : String) : Option EmailMessage :=
  let fields := jsSplit FIELD_DELIM record
  if 4 ≤ fields.length then
    some { subject := if fields.getD 0 "" = "" then "No subject" else fields.getD 0 ""
           sender := if fields.getD 1 "" = "" then "Unknown sender" else fields.getD 1 ""
           dateSent := if fields.getD 2 "" = "" then now else fields.getD 2 ""
           isRead := fields.getD 3 "" = "true"
           content := if fields.getD 4 "" = "" then "[Content not available]" else fields.getD 4 ""
           mailbox := account ++ " - INBOX" }
  else none

/-- Modelled from the spec's words (spec.md §4.4): split on the record
delimiter first, discarding empty fragments, then decode each record,
dropping those with fewer than 4 fields. -/
def specParseLatest (now account reply : String) : List EmailMessage :=
  ((jsSplit DELIM reply).filter (fun s => s ≠ "")).filterMap
    (specParseRecord now account)

/-- Modelled from the spec's words (spec.md §4.2): free-text literals
escaped by doubling embedded quote characters and escaping backslashes, in
that order. -/
def specEscapeFreeText (s : String) : String :=
  escapeBackslashes
    (String.mk (s.data.flatMap fun c => if c = '"' then ['"', '"'] else [c]))

/-! ## Helper lemmas: the splitter -/

theorem mk_data (s : String) : String.mk s.data = s := rfl

/-- The fuel of `splitCharsF` is irrelevant once it exceeds the input
length. -/
theorem splitCharsF_fuel (sep : List Char) :
    ∀ (n m : Nat) (cs : List Char), cs.length < n → cs.length < m →
      splitCharsF sep n cs = splitCharsF sep m cs := by
  intro n
  induction n with
  | zero => intro m cs hn _; exact absurd hn (by omega)
  | succ n ih =>
    intro m cs hn hm
    obtain ⟨m', rfl⟩ : ∃ m', m = m' + 1 := ⟨m - 1, by omega⟩
    cases cs with
    | nil => rfl
    | cons c rest =>
      simp only [splitCharsF]
      by_cases h : sep.isPrefixOf (c :: rest) ∧ sep ≠ []
      · have hsep : 0 < sep.length := List.length_pos.mpr h.2
        have h1 : ((c :: rest).drop sep.length).length < n := by
          simp only [List.length_drop, List.length_cons]
          simp only [List.length_cons] at hn
          omega
        have h2 : ((c :: rest).drop sep.length).length < m' := by
          simp only [List.length_drop, List.length_cons]
          simp only [List.length_cons] at hm
          omega
        rw [if_pos h, if_pos h, ih m' _ h1 h2]
      · have h1 : rest.length < n := by
          simp only [List.length_cons] at hn
          omega
        have h2 : rest.length < m' := by
          simp only [List.length_cons] at hm
          omega
        rw [if_neg h, if_neg h, ih m' _ h1 h2]

theorem splitCharsF_eq (sep : List Char) (n : Nat) (cs : List Char)
    (h : cs.length < n) : splitCharsF sep n cs = splitChars sep cs :=
  splitCharsF_fuel sep n (cs.length + 1) cs h (by omega)

/-- A separator is border-free when no proper nonempty suffix of it is also
a prefix of it; the two private delimiters of mail.ts are border-free, so an
occurrence of a delimiter cannot straddle a record boundary. -/
def NoBorder (sep : List Char) : Prop :=
  ∀ k, k < sep.length → 0 < k → sep.drop k ≠ sep.take (sep.length - k)

theorem noBorder_DELIM : NoBorder DELIM.data := by
  unfold NoBorder
  decide

/-- Splitting `a ++ sep ++ b` at a border-free separator that does not occur
in `a` cuts exactly at the explicit occurrence. -/
theorem splitCharsF_append (sep : List Char) (hne : sep ≠ []) (hnb : NoBorder sep) :
    ∀ (a : List Char) (n : Nat) (b : List Char),
      (a ++ sep ++ b).length < n → ¬ sep <:+: a →
      splitCharsF sep n (a ++ sep ++ b) = a :: splitChars sep b := by
  intro a
  induction a with
  | nil =>
    intro n b hn _
    simp only [List.nil_append] at hn ⊢
    obtain ⟨n', rfl⟩ : ∃ n', n = n' + 1 := ⟨n - 1, by omega⟩
    obtain ⟨c, stail, rfl⟩ : ∃ c stail, sep = c :: stail := by
      cases sep with
      | nil => exact absurd rfl hne
      | cons c stail => exact ⟨c, stail, rfl⟩
    rw [List.cons_append]
    simp only [splitCharsF]
    rw [if_pos ⟨List.isPrefixOf_iff_prefix.mpr
          (by rw [← List.cons_append]; exact List.prefix_append _ b), by simp⟩]
    rw [← List.cons_append, List.drop_left]
    have hb : b.length < n' := by
      simp only [List.length_append, List.length_cons] at hn
      omega
    rw [splitCharsF_eq _ _ _ hb]
  | cons c a' ih =>
    intro n b hn ha
    obtain ⟨n', rfl⟩ : ∃ n', n = n' + 1 := ⟨n - 1, by omega⟩
    simp only [List.cons_append] at hn ⊢
    have hcond : ¬ (sep.isPrefixOf (c :: (a' ++ sep ++ b)) ∧ sep ≠ []) := by
      rintro ⟨hp, -⟩
      rw [List.isPrefixOf_iff_prefix] at hp
      have hform : c :: (a' ++ sep ++ b) = (c :: a') ++ (sep ++ b) := by
        simp [List.append_assoc]
      rw [hform] at hp
      have hk := List.prefix_iff_eq_take.mp hp
      rw [List.take_append_eq_append_take] at hk
      by_cases hlen : sep.length ≤ (c :: a').length
      · rw [Nat.sub_eq_zero_of_le hlen, List.take_zero, List.append_nil] at hk
        exact ha (by rw [hk]; exact (List.take_prefix _ _).isInfix)
      · push_neg at hlen
        have h1 : (c :: a').take sep.length = c :: a' :=
          List.take_of_length_le (by omega)
        rw [h1] at hk
        have h2 : (sep ++ b).take (sep.length - (c :: a').length)
            = sep.take (sep.length - (c :: a').length) := by
          have hmle : sep.length - (c :: a').length ≤ sep.length := by omega
          rw [List.take_append_eq_append_take, Nat.sub_eq_zero_of_le hmle,
            List.take_zero, List.append_nil]
        rw [h2] at hk
        have hdrop : sep.drop (c :: a').length
            = sep.take (sep.length - (c :: a').length) := by
          conv_lhs => rw [hk]
          rw [List.drop_left]
        exact hnb (c :: a').length hlen (by simp) hdrop
    simp only [splitCharsF]
    rw [if_neg hcond]
    have ha' : ¬ sep <:+: a' := fun h => ha (List.infix_cons h)
    have hn' : (a' ++ sep ++ b).length < n' := by
      simp only [List.length_cons, List.length_append] at hn ⊢
      omega
    rw [ih n' b hn' ha']

theorem splitChars_append (sep : List Char) (hne : sep ≠ []) (hnb : NoBorder sep)
    (a b : List Char) (ha : ¬ sep <:+: a) :
    splitChars sep (a ++ sep ++ b) = a :: splitChars sep b :=
  splitCharsF_append sep hne hnb a _ b (by omega) ha

/-- Splitting a concatenation of separator-terminated, separator-free
records recovers the records, plus one final empty fragment. -/
theorem splitChars_flatten (sep : List Char) (hne : sep ≠ []) (hnb : NoBorder sep) :
    ∀ (rs : List (List Char)), (∀ r ∈ rs, ¬ sep <:+: r) →
      splitChars sep ((rs.map (fun r => r ++ sep)).flatten) = rs ++ [[]] := by
  intro rs
  induction rs with
  | nil => intro _; rfl
  | cons r rs ih =>
    intro h
    simp only [List.map_cons, List.flatten_cons, List.append_assoc]
    rw [← List.append_assoc]
    rw [splitChars_append sep hne hnb r _ (h r (by simp))]
    rw [ih (fun r' hr' => h r' (by simp [hr']))]
    rfl

/-! ## Helper lemmas: the latest-messages reply and its parse -/

theorem foldl_reply_data : ∀ (l : List MailRecord) (acc : String),
    (l.foldl (fun acc m => acc ++ scriptRecord m ++ DELIM) acc).data =
      acc.data ++ (l.map (fun m => (scriptRecord m).data ++ DELIM.data)).flatten := by
  intro l
  induction l with
  | nil => intro acc; simp
  | cons m l ih =>
    intro acc
    simp only [List.foldl_cons, List.map_cons, List.flatten_cons, ih,
      String.data_append, List.append_assoc]

theorem latestReplyFor_data (msgs : List MailRecord) (maxMessages : Nat) :
    (latestReplyFor msgs maxMessages).data =
      ((msgs.take (min msgs.length maxMessages)).map
        (fun m => (scriptRecord m).data ++ DELIM.data)).flatten := by
  unfold latestReplyFor
  rw [foldl_reply_data]
  rfl

/-- A guarded push-fold is a `filterMap`. -/
theorem foldl_guard_aux {α β : Type} (p : α → Prop) [DecidablePred p] (f : α → β) :
    ∀ (L : List α) (init : List β),
      L.foldl (fun acc x => if p x then acc ++ [f x] else acc) init
        = init ++ L.filterMap (fun x => if p x then some (f x) else none) := by
  intro L
  induction L with
  | nil => intro init; simp
  | cons x L ih =>
    intro init
    by_cases h : p x <;>
      simp [List.foldl_cons, ih, h, List.append_assoc]

/-- The record-parsing fold of `getLatestMails` computes the spec-side
filter-and-decode of §4.4. -/
theorem parseEmailData_eq (now account reply : String) :
    parseEmailData now account reply =
      ((jsSplit DELIM reply).filter (fun s => s ≠ "")).filterMap
        (specParseRecord now account) := by
  unfold parseEmailData
  have hstep : parseRecordStep now account = fun acc x =>
      if 4 ≤ (jsSplit FIELD_DELIM x).length then
        acc ++ [{ subject := jsOr ((jsSplit FIELD_DELIM x).getD 0 "") "No subject"
                  sender := jsOr ((jsSplit FIELD_DELIM x).getD 1 "") "Unknown sender"
                  dateSent := jsOr ((jsSplit FIELD_DELIM x).getD 2 "") now
                  isRead := (jsSplit FIELD_DELIM x).getD 3 "" = "true"
                  content := jsOr ((jsSplit FIELD_DELIM x).getD 4 "") "[Content not available]"
                  mailbox := account ++ " - INBOX" }]
      else acc := rfl
  rw [hstep, foldl_guard_aux, List.nil_append]
  rfl

/-! ## Helper lemmas: access gate -/

theorem requestMailAccess_ok {inv : Invoker} {v : ASValue}
    (h : inv accessScript = .ok v) :
    requestMailAccess inv = ⟨true, "Mail access is already granted."⟩ := by
  unfold requestMailAccess checkMailAccess
  rw [h]
  rfl

theorem requestMailAccess_error {inv : Invoker} {e : String}
    (h : inv accessScript = .error e) :
    requestMailAccess inv = ⟨false, remediationMessage⟩ := by
  unfold requestMailAccess checkMailAccess
  rw [h]
  rfl

/-! ## Helper lemmas: reply-prefix stripping and address extraction -/

theorem stripReplyTag_strips (p ws rest : String)
    (hp : jsToLower p = "re:" ∨ jsToLower p = "fwd:")
    (hws : ∀ c ∈ ws.data, c.isWhitespace = true)
    (hrest : ∀ c ∈ rest.data.head?, c.isWhitespace = false) :
    stripReplyTag (p ++ ws ++ rest) = rest := by
  have hdata : (p ++ ws ++ rest).data = p.data ++ (ws.data ++ rest.data) := by
    simp [List.append_assoc]
  have hdropws : (ws.data ++ rest.data).dropWhile Char.isWhitespace = rest.data := by
    rw [List.dropWhile_append_of_pos hws]
    cases hr : rest.data with
    | nil => rfl
    | cons c t =>
      have := hrest c (by rw [hr]; rfl)
      simp [List.dropWhile_cons, this]
  rcases hp with hre | hfwd
  · have hmap : p.data.map Char.toLower = ['r', 'e', ':'] := congrArg String.data hre
    have hlen : p.data.length = 3 := by
      have := congrArg List.length hmap
      simpa using this
    simp only [stripReplyTag, hdata, List.take_left' hlen, List.drop_left' hlen,
      hmap, hdropws, if_true, mk_data]
  · have hmap : p.data.map Char.toLower = ['f', 'w', 'd', ':'] := congrArg String.data hfwd
    have hlen : p.data.length = 4 := by
      have := congrArg List.length hmap
      simpa using this
    have h3 : (p.data ++ (ws.data ++ rest.data)).take 3 = p.data.take 3 := by
      rw [List.take_append_eq_append_take,
        show 3 - p.data.length = 0 by omega, List.take_zero, List.append_nil]
    have hne3 : ((p.data ++ (ws.data ++ rest.data)).take 3).map Char.toLower
        ≠ ['r', 'e', ':'] := by
      rw [h3, List.map_take, hmap]
      decide
    simp only [stripReplyTag, hdata, hne3, if_false, List.take_left' hlen,
      List.drop_left' hlen, hmap, hdropws, if_true, mk_data]

theorem splitAtGt_append (xs ys : List Char) (h : '>' ∉ xs) :
    splitAtGt (xs ++ '>' :: ys) = some (xs, ys) := by
  induction xs with
  | nil => simp [splitAtGt]
  | cons c t ih =>
    have hc : c ≠ '>' := fun e => h (e ▸ List.mem_cons_self c t)
    have ht : '>' ∉ t := fun hm => h (List.mem_cons_of_mem c hm)
    simp only [List.cons_append, splitAtGt, if_neg hc, List.append_eq]
    rw [ih ht]

theorem firstAngleCapture_append (nd ad rd : List Char)
    (hn : '<' ∉ nd) (ha : '>' ∉ ad) (hne : ad ≠ []) :
    firstAngleCapture (nd ++ '<' :: (ad ++ '>' :: rd)) = some ad := by
  induction nd with
  | nil =>
    simp only [List.nil_append, firstAngleCapture, if_true]
    rw [splitAtGt_append ad rd ha]
    simp [hne]
  | cons c t ih =>
    have hc : c ≠ '<' := fun e => hn (e ▸ List.mem_cons_self c t)
    have ht : '<' ∉ t := fun hm => hn (List.mem_cons_of_mem c hm)
    simp only [List.cons_append, firstAngleCapture, if_neg hc]
    exact ih ht

theorem firstAngleCapture_none (cs : List Char) (h : '<' ∉ cs) :
    firstAngleCapture cs = none := by
  induction cs with
  | nil => rfl
  | cons c t ih =>
    have hc : c ≠ '<' := fun e => h (e ▸ List.mem_cons_self c t)
    have ht : '<' ∉ t := fun hm => h (List.mem_cons_of_mem c hm)
    simp only [firstAngleCapture, if_neg hc]
    exact ih ht

theorem recipientAddr_angle (name addr rest2 : String)
    (hn : '<' ∉ name.data) (ha : '>' ∉ addr.data) (hne : addr ≠ "") :
    recipientAddr (name ++ "<" ++ addr ++ ">" ++ rest2) = addr := by
  have hne' : addr.data ≠ [] := by
    intro e
    apply hne
    rw [← mk_data addr, e]
  have hdata : (name ++ "<" ++ addr ++ ">" ++ rest2).data
      = name.data ++ '<' :: (addr.data ++ '>' :: rest2.data) := by
    simp [List.append_assoc]
  unfold recipientAddr
  rw [hdata, firstAngleCapture_append _ _ _ hn ha hne']

theorem recipientAddr_plain (s : String) (h : '<' ∉ s.data) :
    recipientAddr s = s := by
  unfold recipientAddr
  rw [firstAngleCapture_none _ h]

/-! ## Helper lemmas: escaping -/

/-- The composed subject escaping computed character by character: the
backslash-doubling pass re-escapes the backslashes the quote pass
introduced. -/
theorem archiveSafeSubject_chars (s : String) :
    archiveSafeSubject s = String.mk (s.data.flatMap fun c =>
      if c = '"' then ['\\', '\\', '"']
      else if c = '\\' then ['\\', '\\'] else [c]) := by
  show String.mk ((s.data.flatMap fun c =>
      if c = '"' then ['\\', '"'] else [c]).flatMap fun c =>
        if c = '\\' then ['\\', '\\'] else [c]) = _
  rw [List.flatMap_assoc]
  congr 1
  congr 1
  funext c
  by_cases hc : c = '"'
  · simp [hc]
  · by_cases hb : c = '\\' <;> simp [hc, hb]

/-- Mapping a character-wise replacement over a string that contains no
occurrence of the replaced character leaves it unchanged. -/
theorem flatMap_ite_id (a : Char) (repl : List Char) :
    ∀ (l : List Char), a ∉ l →
      (l.flatMap fun c => if c = a then repl else [c]) = l := by
  intro l
  induction l with
  | nil => intro _; rfl
  | cons c t ih =>
    intro h
    have hc : c ≠ a := fun e => h (e ▸ List.mem_cons_self c t)
    have ht : a ∉ t := fun hm => h (List.mem_cons_of_mem c hm)
    simp [hc, ih ht]

/-! ## Helper lemmas: the listing operations always return the empty list -/

theorem getUnreadMails_fst_nil (inv : Invoker) (limit : Nat) :
    (getUnreadMails inv limit).1 = [] := by
  simp only [getUnreadMails]
  split
  · rfl
  · split
    · split <;> rfl
    · rfl
    · rfl

theorem searchMails_fst_nil (inv : Invoker) (term : String) (limit : Nat) :
    (searchMails inv term limit).1 = [] := by
  simp only [searchMails]
  split
  · rfl
  · split
    · rfl
    · split
      · split <;> rfl
      · rfl
      · rfl

/-! ## Shared fake interpreters for concrete runs -/

/-- A fake interpreter that grants the access probe and raises on every
other script. -/
def invGrantOnly : Invoker := fun s =>
  if s = accessScript then .ok (.str "Mail") else .error "boom"

/-- A fake interpreter that grants the access probe and replies to every
other script with a single comma-joined text value. -/
def invCommaReply : Invoker := fun s =>
  if s = accessScript then .ok (.str "Mail") else .ok (.str "Alpha, Beta")

/-! ## Claim theorems -/

/-- Claim C4 (confirmed): the reply parser of `getLatestMails` splits on the
record delimiter discarding empty fragments, keeps exactly the records with
at least 4 fields, and substitutes the fixed placeholders ("No subject",
"Unknown sender", the current timestamp, "[Content not available]") for
missing subject, sender, date and content fields — it coincides with the
spec-side parser built from the words of §4.4. -/
theorem parseLatest_matches_spec (now account reply : String) :
    parseEmailData now account reply = specParseLatest now account reply := by
  rw [parseEmailData_eq]
  rfl

/-- Claim C5 (confirmed): for every interpreter behaviour and every input —
including a successful `SUCCESS:`-prefixed reply — `getUnreadMails` and
`searchMails` return the empty list. -/
theorem unread_and_search_always_empty (inv : Invoker) (limit : Nat) (term : String) :
    (getUnreadMails inv limit).1 = [] ∧ (searchMails inv term limit).1 = [] :=
  ⟨getUnreadMails_fst_nil inv limit, searchMails_fst_nil inv term limit⟩

/-- Claim C1 (code bug): with valid non-empty inputs and an interpreter that
grants the access probe but raises on the send script, `sendMail` writes the
temporary body file but attempts no deletion — the unlink of mail.ts line
315 is reached only when the `await` of line 311 returns, so the error path
leaks the file — while the error is re-thrown as required. -/
theorem sendMail_tmpfile_leak_on_invoker_error :
    (sendMail invGrantOnly 0 "a@b.c" "Hi" "Hello" none none).fileWritten = some "Hello" ∧
    (sendMail invGrantOnly 0 "a@b.c" "Hi" "Hello" none none).fileDeleted = false ∧
    (sendMail invGrantOnly 0 "a@b.c" "Hi" "Hello" none none).result
      = .error "Error sending email: boom" :=
  ⟨rfl, rfl, rfl⟩

/-- Claim C10 (confirmed): whenever `sendMail` passes validation and reaches
the temporary file, the content written to that file is the body trimmed of
leading and trailing whitespace (mail.ts line 289). -/
theorem sendMail_writes_trimmed_body (inv : Invoker) (now : Nat)
    (toAddr subject body : String) (cc bcc : Option String) (v : ASValue)
    (hacc : inv accessScript = .ok v) (hto : jsTrim toAddr ≠ "")
    (hsubj : jsTrim subject ≠ "") (hbody : jsTrim body ≠ "") :
    (sendMail inv now toAddr subject body cc bcc).fileWritten = some (jsTrim body) := by
  simp only [sendMail, requestMailAccess_ok hacc, if_neg hto, if_neg hsubj,
    if_neg hbody, Bool.true_eq_false, if_false]
  split <;> first | rfl | (split <;> rfl)

theorem sendMail_writes_trimmed_body_witness :
    (sendMail invGrantOnly 0 "a@b.c" "Hi" " Hello " none none).fileWritten
      = some "Hello" := by
  have h := sendMail_writes_trimmed_body invGrantOnly 0 "a@b.c" "Hi" " Hello "
    none none (.str "Mail") rfl (by decide) (by decide) (by decide)
  rw [h]
  rfl

/-- Claim C2 (counterexample): the escaping applied before interpolation
does not double embedded quote characters — a quote becomes
backslash-quote — and the sender literal gets no backslash escaping at
all, so the spec-side escaping of §4.2 disagrees with the code already on a
one-character input. -/
theorem escape_not_quote_doubling_cex :
    archiveSafeSender "\"" = "\\\"" ∧
    specEscapeFreeText "\"" = "\"\"" ∧
    ("\\\"" : String) ≠ "\"\"" ∧
    archiveSafeSender "a\\b" = "a\\b" ∧
    specEscapeFreeText "a\\b" = "a\\\\b" ∧
    archiveSafeSender "a\\b" ≠ specEscapeFreeText "a\\b" :=
  ⟨rfl, rfl, by decide, rfl, rfl, by decide⟩

/-- Claim C2 (amended): every interpolated free-text literal has each
embedded quote replaced by backslash-quote (never doubled); backslash
escaping is applied only to the subject literal of the mutating operations,
and there it runs after quote-escaping, so it also doubles the backslashes
that quote-escaping introduced; the other literals (account, sender, and
all of `sendMail`'s literals) receive quote-escaping only, leaving their
backslashes untouched. -/
theorem escape_characterization (s : String) :
    escapeQuotes s = String.mk (s.data.flatMap fun c =>
      if c = '"' then ['\\', '"'] else [c]) ∧
    archiveSafeAccount s = escapeQuotes s ∧
    archiveSafeSender s = escapeQuotes s ∧
    archiveSafeSubject s = String.mk (s.data.flatMap fun c =>
      if c = '"' then ['\\', '\\', '"']
      else if c = '\\' then ['\\', '\\'] else [c]) ∧
    ('"' ∉ s.data → archiveSafeSender s = s) := by
  refine ⟨rfl, rfl, rfl, archiveSafeSubject_chars s, fun h => ?_⟩
  show String.mk (s.data.flatMap fun c => if c = '"' then ['\\', '"'] else [c]) = s
  conv_rhs => rw [← mk_data s]
  rw [flatMap_ite_id '"' ['\\', '"'] s.data h]

theorem escape_characterization_witness :
    '"' ∉ ("plain\\path" : String).data ∧
    archiveSafeSender "plain\\path" = "plain\\path" :=
  ⟨by decide, (escape_characterization "plain\\path").2.2.2.2 (by decide)⟩

/-- Claim C3 (counterexample): `searchMails` on an empty term returns the
empty list, but a fake invoker recording calls records one — the access
probe of `requestMailAccess` runs before the empty-term check (mail.ts
lines 166-173) — so "an invoker recording calls records zero" is false. -/
theorem empty_term_still_probes_access_cex :
    (searchMails invGrantOnly "" 10).1 = [] ∧
    (searchMails invGrantOnly "" 10).2 = [accessScript] ∧
    (searchMails invGrantOnly "" 10).2.length ≠ 0 :=
  ⟨rfl, rfl, by decide⟩

/-- Claim C3 (amended): for an empty or whitespace-only search term,
account name, or `sendMail` required field, the operation's own script is
never built or invoked and the operation rejects (empty list, or a re-thrown
validation error with no temporary file); the only interpreter call is the
access probe, which always runs first. -/
theorem empty_inputs_skip_operation_script (inv : Invoker) (now : Nat)
    (limit : Nat) (term acct toAddr subject body : String)
    (cc bcc : Option String) :
    (jsTrim term = "" → (searchMails inv term limit).1 = [] ∧
      (searchMails inv term limit).2 = [accessScript]) ∧
    (jsTrim acct = "" → (getMailboxesForAccount inv acct).1 = [] ∧
      (getMailboxesForAccount inv acct).2 = [accessScript]) ∧
    ((jsTrim toAddr = "" ∨ jsTrim subject = "" ∨ jsTrim body = "") →
      (∃ msg, (sendMail inv now toAddr subject body cc bcc).result = .error msg) ∧
      (sendMail inv now toAddr subject body cc bcc).trace = [accessScript] ∧
      (sendMail inv now toAddr subject body cc bcc).fileWritten = none) := by
  cases hacc : inv accessScript with
  | error e =>
    refine ⟨fun _ => ⟨?_, ?_⟩, fun _ => ⟨?_, ?_⟩,
      fun _ => ⟨⟨"Error sending email: " ++ remediationMessage, ?_⟩, ?_, ?_⟩⟩ <;>
      simp [searchMails, getMailboxesForAccount, sendMail,
        requestMailAccess_error hacc]
  | ok v =>
    refine ⟨fun ht => ⟨?_, ?_⟩, fun ha => ⟨?_, ?_⟩, fun hd => ?_⟩
    · simp [searchMails, requestMailAccess_ok hacc, ht]
    · simp [searchMails, requestMailAccess_ok hacc, ht]
    · simp [getMailboxesForAccount, requestMailAccess_ok hacc, ha]
    · simp [getMailboxesForAccount, requestMailAccess_ok hacc, ha]
    · by_cases h1 : jsTrim toAddr = ""
      · refine ⟨⟨"Error sending email: To address is required", ?_⟩, ?_, ?_⟩ <;>
          simp [sendMail, requestMailAccess_ok hacc, h1]
      · by_cases h2 : jsTrim subject = ""
        · refine ⟨⟨"Error sending email: Subject is required", ?_⟩, ?_, ?_⟩ <;>
            simp [sendMail, requestMailAccess_ok hacc, h1, h2]
        · have h3 : jsTrim body = "" := by tauto
          refine ⟨⟨"Error sending email: Email body is required", ?_⟩, ?_, ?_⟩ <;>
            simp [sendMail, requestMailAccess_ok hacc, h1, h2, h3]

theorem empty_inputs_skip_operation_script_witness :
    jsTrim "   " = "" ∧
    (searchMails invGrantOnly "   " 10).1 = [] ∧
    (searchMails invGrantOnly "   " 10).2 = [accessScript] ∧
    (getMailboxesForAccount invGrantOnly "").1 = [] ∧
    (getMailboxesForAccount invGrantOnly "").2 = [accessScript] ∧
    (∃ msg, (sendMail invGrantOnly 0 "" "s" "b" none none).result = .error msg) ∧
    (sendMail invGrantOnly 0 "" "s" "b" none none).fileWritten = none := by
  have h := empty_inputs_skip_operation_script invGrantOnly 0 10 "   " ""
    "" "s" "b" none none
  exact ⟨rfl, (h.1 rfl).1, (h.1 rfl).2, (h.2.1 rfl).1, (h.2.1 rfl).2,
    (h.2.2 (Or.inl rfl)).1, (h.2.2 (Or.inl rfl)).2.2⟩

/-- Claim C8 (counterexample): a comma-joined text reply is decoded by
`getMailboxes` but not by `getMailboxesForAccount`, which handles only the
native-list shape (mail.ts lines 473-477) — so "both shapes are accepted by
each listing operation" is false. -/
theorem mailboxesForAccount_rejects_text_shape_cex :
    (getMailboxes invCommaReply).1 = ["Alpha", "Beta"] ∧
    (getMailboxesForAccount invCommaReply "acct").1 = [] :=
  ⟨by decide, by decide⟩

/-- Claim C8 (amended): `getMailboxes` and `getAccounts` accept both reply
shapes — a native list is filtered to non-empty entries, a text value is
split on commas, trimmed and filtered — but `getMailboxesForAccount`
accepts only the native-list shape and returns the empty list for a text
reply. -/
theorem listing_result_shapes (inv : Invoker) (v : ASValue) (xs : List String)
    (r acct : String) (hacc : inv accessScript = .ok v) :
    (inv mailboxesScript = .ok (.list xs) →
      (getMailboxes inv).1 = xs.filter (fun name => name ≠ "")) ∧
    (inv mailboxesScript = .ok (.str r) →
      (getMailboxes inv).1 = (if jsTrim r ≠ "" then
        ((jsSplit "," r).map jsTrim).filter (fun s => s ≠ "") else [])) ∧
    (inv accountsScript = .ok (.list xs) →
      (getAccounts inv).1 = xs.filter (fun name => name ≠ "")) ∧
    (inv accountsScript = .ok (.str r) →
      (getAccounts inv).1 = (if jsTrim r ≠ "" then
        ((jsSplit "," r).map jsTrim).filter (fun s => s ≠ "") else [])) ∧
    (jsTrim acct ≠ "" →
      (inv (mailboxesForAccountScript (escapeQuotes acct)) = .ok (.list xs) →
        (getMailboxesForAccount inv acct).1 = xs.filter (fun name => name ≠ "")) ∧
      (inv (mailboxesForAccountScript (escapeQuotes acct)) = .ok (.str r) →
        (getMailboxesForAccount inv acct).1 = [])) := by
  refine ⟨fun h => ?_, fun h => ?_, fun h => ?_, fun h => ?_,
    fun hne => ⟨fun h => ?_, fun h => ?_⟩⟩
  · simp [getMailboxes, parseNameList, requestMailAccess_ok hacc, h]
  · simp [getMailboxes, parseNameList, requestMailAccess_ok hacc, h]
  · simp [getAccounts, parseNameList, requestMailAccess_ok hacc, h]
  · simp [getAccounts, parseNameList, requestMailAccess_ok hacc, h]
  · simp [getMailboxesForAccount, requestMailAccess_ok hacc, h, hne]
  · simp [getMailboxesForAccount, requestMailAccess_ok hacc, h, hne]

theorem listing_result_shapes_witness :
    (getMailboxes invCommaReply).1 = ["Alpha", "Beta"] ∧
    (getMailboxesForAccount invCommaReply "acct").1 = [] := by
  have h := listing_result_shapes invCommaReply (.str "Mail") []
    "Alpha, Beta" "acct" rfl
  refine ⟨?_, (h.2.2.2.2 (by decide)).2 rfl⟩
  rw [h.2.1 rfl]
  decide

/-- Claim C7 (confirmed): `checkIfReplied` builds its subject containment
pattern from the original subject with one leading `Re:`/`RE:`/`Fwd:`/`FWD:`
marker (case-insensitive, with any trailing whitespace) stripped, and its
recipient pattern from the address captured by the first angle-bracket group
of the sender (`Name <addr>` yields `addr`), falling back to the raw sender
text when no such group exists; the pattern is lowercased for
case-insensitive comparison (and quote-escaped for interpolation). -/
theorem checkIfReplied_pattern_construction
    (p ws rest name addr rest2 s : String) :
    ((jsToLower p = "re:" ∨ jsToLower p = "fwd:") →
      (∀ c ∈ ws.data, c.isWhitespace = true) →
      (∀ c ∈ rest.data.head?, c.isWhitespace = false) →
      stripReplyTag (p ++ ws ++ rest) = rest) ∧
    ('<' ∉ name.data → '>' ∉ addr.data → addr ≠ "" →
      recipientAddr (name ++ "<" ++ addr ++ ">" ++ rest2) = addr ∧
      replyRecipientPattern (name ++ "<" ++ addr ++ ">" ++ rest2)
        = escapeQuotes (jsToLower addr)) ∧
    ('<' ∉ s.data →
      replyRecipientPattern s = escapeQuotes (jsToLower s)) := by
  refine ⟨stripReplyTag_strips p ws rest, fun h1 h2 h3 => ?_, fun h => ?_⟩
  · have hr := recipientAddr_angle name addr rest2 h1 h2 h3
    exact ⟨hr, by unfold replyRecipientPattern; rw [hr]⟩
  · unfold replyRecipientPattern
    rw [recipientAddr_plain s h]

theorem checkIfReplied_pattern_construction_witness :
    stripReplyTag "Re: Project update" = "Project update" ∧
    stripReplyTag ("FWD:" ++ "  " ++ "Budget") = "Budget" ∧
    recipientAddr "John Doe <John@Example.com>" = "John@Example.com" ∧
    replyRecipientPattern "John Doe <John@Example.com>" = "john@example.com" ∧
    replyRecipientPattern "bare@addr.example" = "bare@addr.example" := by
  have h1 := (checkIfReplied_pattern_construction "Re:" " " "Project update"
    "John Doe " "John@Example.com" "" "bare@addr.example").1
    (Or.inl (by decide)) (by decide)
    (by intro c hc; rw [← Option.some.inj hc]; decide)
  have h2 := (checkIfReplied_pattern_construction "FWD:" "  " "Budget"
    "John Doe " "John@Example.com" "" "bare@addr.example").1
    (Or.inr (by decide)) (by decide)
    (by intro c hc; rw [← Option.some.inj hc]; decide)
  have h3 := (checkIfReplied_pattern_construction "Re:" " " "Project update"
    "John Doe " "John@Example.com" "" "bare@addr.example").2.1
    (by decide) (by decide) (by decide)
  have h4 := (checkIfReplied_pattern_construction "Re:" " " "Project update"
    "John Doe " "John@Example.com" "" "bare@addr.example").2.2
    (by decide)
  refine ⟨?_, h2, ?_, ?_, ?_⟩
  · rw [show ("Re: Project update" : String) = "Re:" ++ " " ++ "Project update"
      from rfl]
    exact h1
  · rw [show ("John Doe <John@Example.com>" : String)
      = "John Doe " ++ "<" ++ "John@Example.com" ++ ">" ++ "" from rfl]
    exact h3.1
  · rw [show ("John Doe <John@Example.com>" : String)
      = "John Doe " ++ "<" ++ "John@Example.com" ++ ">" ++ "" from rfl]
    rw [h3.2]
    rfl
  · rw [h4]
    rfl

/-- A fake interpreter for which every invocation, the access probe
included, raises. -/
def invDenyAll : Invoker := fun _ => .error "down"

/-- Claim C6 (confirmed): on an access failure, and on an invocation
failure of the operation's own script with access granted, every read/query
operation (`getUnreadMails`, `searchMails`, `getMailboxes`, `getAccounts`,
`getMailboxesForAccount`, `getLatestMails`) swallows the error and returns
the empty list; `sendMail` instead re-throws an error in both situations. -/
theorem read_ops_swallow_sendMail_rethrows (inv : Invoker) (e : String)
    (v : ASValue) (limit nowMs : Nat)
    (term account now toAddr subject body : String) (cc bcc : Option String) :
    (inv accessScript = .error e →
      (getUnreadMails inv limit).1 = [] ∧
      (searchMails inv term limit).1 = [] ∧
      (getMailboxes inv).1 = [] ∧
      (getAccounts inv).1 = [] ∧
      (getMailboxesForAccount inv account).1 = [] ∧
      (getLatestMails inv now account limit).1 = [] ∧
      (∃ msg, (sendMail inv nowMs toAddr subject body cc bcc).result
        = .error msg)) ∧
    (inv accessScript = .ok v →
      (inv (unreadScript (min limit MAX_EMAILS)) = .error e →
        (getUnreadMails inv limit).1 = []) ∧
      (inv (searchScript (jsToLower term) (min limit MAX_EMAILS)) = .error e →
        (searchMails inv term limit).1 = []) ∧
      (inv mailboxesScript = .error e → (getMailboxes inv).1 = []) ∧
      (inv accountsScript = .error e → (getAccounts inv).1 = []) ∧
      (inv (mailboxesForAccountScript (escapeQuotes account)) = .error e →
        (getMailboxesForAccount inv account).1 = []) ∧
      (inv (latestScript (escapeQuotes account) (min limit MAX_EMAILS)) = .error e →
        (getLatestMails inv now account limit).1 = []) ∧
      (inv (sendScript (tmpFileName nowMs) toAddr subject cc bcc) = .error e →
        ∃ msg, (sendMail inv nowMs toAddr subject body cc bcc).result
          = .error msg)) := by
  constructor
  · intro hacc
    refine ⟨getUnreadMails_fst_nil inv limit, searchMails_fst_nil inv term limit,
      ?_, ?_, ?_, ?_,
      ⟨"Error sending email: " ++ remediationMessage, ?_⟩⟩ <;>
      simp [getMailboxes, getAccounts, getMailboxesForAccount, getLatestMails,
        sendMail, requestMailAccess_error hacc]
  · intro hacc
    refine ⟨fun _ => getUnreadMails_fst_nil inv limit,
      fun _ => searchMails_fst_nil inv term limit,
      fun h => ?_, fun h => ?_, fun h => ?_, fun h => ?_, fun h => ?_⟩
    · simp [getMailboxes, requestMailAccess_ok hacc, h]
    · simp [getAccounts, requestMailAccess_ok hacc, h]
    · by_cases ha : jsTrim account = ""
      · simp [getMailboxesForAccount, requestMailAccess_ok hacc, ha]
      · simp [getMailboxesForAccount, requestMailAccess_ok hacc, ha, h]
    · simp [getLatestMails, requestMailAccess_ok hacc, h]
    · by_cases h1 : jsTrim toAddr = ""
      · exact ⟨"Error sending email: To address is required",
          by simp [sendMail, requestMailAccess_ok hacc, h1]⟩
      · by_cases h2 : jsTrim subject = ""
        · exact ⟨"Error sending email: Subject is required",
            by simp [sendMail, requestMailAccess_ok hacc, h1, h2]⟩
        · by_cases h3 : jsTrim body = ""
          · exact ⟨"Error sending email: Email body is required",
              by simp [sendMail, requestMailAccess_ok hacc, h1, h2, h3]⟩
          · exact ⟨"Error sending email: " ++ e,
              by simp [sendMail, requestMailAccess_ok hacc, h1, h2, h3, h]⟩

theorem read_ops_swallow_sendMail_rethrows_witness :
    (getMailboxes invDenyAll).1 = [] ∧
    (getLatestMails invDenyAll "NOW" "Work" 5).1 = [] ∧
    (∃ msg, (sendMail invDenyAll 0 "a@b" "s" "b" none none).result
      = .error msg) ∧
    (getMailboxes invGrantOnly).1 = [] ∧
    (getLatestMails invGrantOnly "NOW" "Work" 5).1 = [] ∧
    (∃ msg, (sendMail invGrantOnly 0 "a@b" "s" "b" none none).result
      = .error msg) := by
  have hd := read_ops_swallow_sendMail_rethrows invDenyAll "down" (.str "Mail")
    5 0 "t" "Work" "NOW" "a@b" "s" "b" none none
  have hg := read_ops_swallow_sendMail_rethrows invGrantOnly "boom" (.str "Mail")
    5 0 "t" "Work" "NOW" "a@b" "s" "b" none none
  have hd1 := hd.1 rfl
  have hg2 := hg.2 rfl
  exact ⟨hd1.2.2.1, hd1.2.2.2.2.2.1, hd1.2.2.2.2.2.2,
    hg2.2.2.1 rfl, hg2.2.2.2.2.2.1 rfl, hg2.2.2.2.2.2.2 rfl⟩

/-! ## Helper lemmas for the length bound of `getLatestMails` -/

theorem parseEmailData_length_le (now account : String)
    (msgs : List MailRecord) (maxM : Nat)
    (hdf : ∀ m ∈ msgs, ¬ (DELIM.data <:+: (scriptRecord m).data)) :
    (parseEmailData now account (latestReplyFor msgs maxM)).length ≤ maxM := by
  rw [parseEmailData_eq]
  have hreply : (latestReplyFor msgs maxM).data
      = (((msgs.take (min msgs.length maxM)).map
          (fun m => (scriptRecord m).data)).map (fun r => r ++ DELIM.data)).flatten := by
    rw [latestReplyFor_data, List.map_map]
    rfl
  have hsplit : splitChars DELIM.data (latestReplyFor msgs maxM).data
      = ((msgs.take (min msgs.length maxM)).map
          (fun m => (scriptRecord m).data)) ++ [[]] := by
    rw [hreply]
    apply splitChars_flatten DELIM.data (by decide) noBorder_DELIM
    intro r hr
    obtain ⟨m, hm, rfl⟩ := List.mem_map.mp hr
    exact hdf m (List.mem_of_mem_take hm)
  unfold jsSplit
  rw [hsplit, List.map_append, List.filter_append]
  have hemp : (List.map String.mk [[]] : List String).filter
      (fun s => s ≠ "") = [] := rfl
  rw [hemp, List.append_nil]
  refine le_trans (List.length_filterMap_le _ _)
    (le_trans (List.length_filter_le _ _) ?_)
  simp [List.length_take]

theorem getLatestMails_length_le (inv : Invoker) (now account : String)
    (limit : Nat) (msgs : List MailRecord)
    (hdf : ∀ m ∈ msgs, ¬ (DELIM.data <:+: (scriptRecord m).data))
    (hinv : inv (latestScript (escapeQuotes account) (min limit MAX_EMAILS))
      = .ok (.str (latestReplyFor msgs (min limit MAX_EMAILS)))) :
    (getLatestMails inv now account limit).1.length ≤ MAX_EMAILS := by
  cases hacc : inv accessScript with
  | error e => simp [getLatestMails, requestMailAccess_error hacc]
  | ok v =>
    simp only [getLatestMails, requestMailAccess_ok hacc, hinv]
    by_cases herr : jsStartsWith (latestReplyFor msgs (min limit MAX_EMAILS))
        "ERROR:" = true
    · simp [herr]
    · simp only [if_neg herr]
      exact le_trans
        (parseEmailData_length_le now account msgs (min limit MAX_EMAILS) hdf)
        (Nat.min_le_right _ _)

/-- One concrete mailbox message used for witnesses. -/
def sampleMsg : MailRecord :=
  ⟨"Weekly report", "anna@example.org", "Mon Jan 1", false, "Numbers attached"⟩

/-- A fake interpreter that grants access, answers the latest-messages
script for account "Work" with the reply its AppleScript would compute on a
one-message mailbox, and raises on everything else. -/
def invLatestSample : Invoker := fun s =>
  if s = accessScript then .ok (.str "Mail")
  else if jsStartsWith s "\ntell application \"Mail\"\n    set resultText" then
    .ok (.str (latestReplyFor [sampleMsg] (min 5 MAX_EMAILS)))
  else .error "boom"

/-- Claim C9 (confirmed): the limit interpolated into the generated scripts
of `getUnreadMails`, `searchMails` and `getLatestMails` is `min limit 20`
(visible in the invocation trace), and the returned message lists stay
within 20 entries — trivially for the first two, and for `getLatestMails`
whenever the reply is what its generated script computes on a mailbox whose
records do not contain the private record delimiter. -/
theorem limit_clamped_and_results_bounded (inv : Invoker) (limit : Nat)
    (term account now : String) (v : ASValue) (msgs : List MailRecord) :
    (inv accessScript = .ok v →
      (getUnreadMails inv limit).2
        = [accessScript, unreadScript (min limit MAX_EMAILS)] ∧
      (jsTrim term ≠ "" → (searchMails inv term limit).2
        = [accessScript, searchScript (jsToLower term) (min limit MAX_EMAILS)]) ∧
      (getLatestMails inv now account limit).2
        = [accessScript, latestScript (escapeQuotes account) (min limit MAX_EMAILS)]) ∧
    min limit MAX_EMAILS ≤ 20 ∧
    (getUnreadMails inv limit).1.length ≤ 20 ∧
    (searchMails inv term limit).1.length ≤ 20 ∧
    ((∀ m ∈ msgs, ¬ (DELIM.data <:+: (scriptRecord m).data)) →
      inv (latestScript (escapeQuotes account) (min limit MAX_EMAILS))
        = .ok (.str (latestReplyFor msgs (min limit MAX_EMAILS))) →
      (getLatestMails inv now account limit).1.length ≤ 20) := by
  refine ⟨fun hacc => ⟨?_, fun ht => ?_, ?_⟩,
    by simp [MAX_EMAILS],
    by simp [getUnreadMails_fst_nil],
    by simp [searchMails_fst_nil],
    fun hdf hinv => by
      simpa [MAX_EMAILS] using
        getLatestMails_length_le inv now account limit msgs hdf hinv⟩
  · cases hi : inv (unreadScript (min limit MAX_EMAILS)) with
    | ok w => cases w <;>
        simp [getUnreadMails, requestMailAccess_ok hacc, hi, apply_ite]
    | error err => simp [getUnreadMails, requestMailAccess_ok hacc, hi]
  · cases hi : inv (searchScript (jsToLower term) (min limit MAX_EMAILS)) with
    | ok w => cases w <;>
        simp [searchMails, requestMailAccess_ok hacc, ht, hi, apply_ite]
    | error err => simp [searchMails, requestMailAccess_ok hacc, ht, hi]
  · cases hi : inv (latestScript (escapeQuotes account) (min limit MAX_EMAILS)) with
    | ok w => cases w <;>
        simp [getLatestMails, requestMailAccess_ok hacc, hi, apply_ite]
    | error err => simp [getLatestMails, requestMailAccess_ok hacc, hi]

set_option maxRecDepth 40000 in
theorem limit_clamped_and_results_bounded_witness :
    (getUnreadMails invLatestSample 5).2
      = [accessScript, unreadScript (min 5 MAX_EMAILS)] ∧
    min 5 MAX_EMAILS ≤ 20 ∧
    (getLatestMails invLatestSample "NOW" "Work" 5).1.length ≤ 20 := by
  have h := limit_clamped_and_results_bounded invLatestSample 5 "hello" "Work"
    "NOW" (.str "Mail") [sampleMsg]
  exact ⟨(h.1 rfl).1, h.2.1, h.2.2.2.2 (by decide) rfl⟩

end Mail
